import Mathlib

/-!
Verification of the telegram-get-files repository: a shallow embedding of
`utils.py`, `get-files-list.py`, `downloader.py` and `get-files-bot.py`.

The SQLite `file_status` table is modelled as an association list of
`(channel_id, message_id)` keys to rows; SQL `UPDATE ... WHERE channel_id = ?
AND message_id = ?` becomes a structure-preserving map over the list and
`INSERT` an append.  Filesystem reads are an oracle (`FS`); the download
worker's IO effects (transfer success, hash result, rename success) are passed
as explicit outcome parameters and the worker additionally returns a trace of
the effectful actions it performed.
-/

namespace TG

/-- The character class of the regex in `sanitize_name` and of the
comprehension in `get_prefixed_filename`, in source order. -/
def ILLEGAL : List Char := ['<', '>', ':', '"', '/', '\\', '|', '?', '*']

/-- One decimal digit as a character (used to model Python's `str` on ints). -/
def digitChar (n : Nat) : Char :=
  if n = 0 then '0' else if n = 1 then '1' else if n = 2 then '2'
  else if n = 3 then '3' else if n = 4 then '4' else if n = 5 then '5'
  else if n = 6 then '6' else if n = 7 then '7' else if n = 8 then '8' else '9'

/-- Fuelled decimal digit accumulator (fuel `n + 1` is always sufficient). -/
def natDigitsAux : Nat → Nat → List Char → List Char
  | 0, _, acc => acc
  | fuel + 1, n, acc =>
    let acc1 := digitChar (n % 10) :: acc
    if n < 10 then acc1 else natDigitsAux fuel (n / 10) acc1

/-- Decimal rendering of a natural number, as Python's `str`. -/
def natToString (n : Nat) : String :=
  String.mk (natDigitsAux (n + 1) n [])

/-- Zero-pad a decimal rendering to width `w` (as `strftime` field output). -/
def padZero (w : Nat) (n : Nat) : String :=
  String.mk (List.replicate (w - (natDigitsAux (n + 1) n []).length) '0'
    ++ natDigitsAux (n + 1) n [])

/-- A timezone-aware datetime, as carried by `message.date`. -/
structure DateTime where
  year : Nat
  month : Nat
  day : Nat
  hour : Nat
  minute : Nat
  second : Nat
deriving DecidableEq

/-- `message.date.strftime('%Y-%m-%d_%H-%M-%S')`. -/
def strftimeDate (d : DateTime) : String :=
  padZero 4 d.year ++ "-" ++ padZero 2 d.month ++ "-" ++ padZero 2 d.day ++ "_"
    ++ padZero 2 d.hour ++ "-" ++ padZero 2 d.minute ++ "-" ++ padZero 2 d.second

/-- `message.date.isoformat()` (stored opaquely in `sent_at`, never parsed). -/
def isoformat (d : DateTime) : String :=
  padZero 4 d.year ++ "-" ++ padZero 2 d.month ++ "-" ++ padZero 2 d.day ++ "T"
    ++ padZero 2 d.hour ++ ":" ++ padZero 2 d.minute ++ ":" ++ padZero 2 d.second

/-- `message.sender` (Telethon user), as read by `insert_or_handle_existing`. -/
structure Sender where
  id : Int
  username : Option String
deriving DecidableEq

/-- The parts of a Telethon message object that the repository reads.
`file_name`/`file_ext` are `message.file.name`/`message.file.ext` (both may be
`None`); `media` is the truthiness of `message.media`. -/
structure Message where
  chat_id : Int
  id : Nat
  chat_title : Option String
  sender : Option Sender
  media : Bool
  file_name : Option String
  file_ext : Option String
  file_id : String
  file_size : Nat
  date : DateTime
deriving DecidableEq

/-- Replace every character of the class `<>:"/\|?*` by `'_'` (the body of
`sanitize_name` and the comprehension in `get_prefixed_filename`). -/
def sanitizeChars (s : String) : String :=
  String.mk (s.data.map (fun c => if c ∈ ILLEGAL then '_' else c))

/-- `utils.sanitize_name`: `re.sub(r'[<>:"/\\|?*]', '_', name.strip()) if name
else None`.  A `None` or empty (falsy) name yields `None`. -/
def sanitize_name (name : Option String) : Option String :=
  match name with
  | none => none
  | some s => if s = "" then none else some (sanitizeChars s.trim)

/-- `ext = message.file.ext or ''`. -/
def extOrEmpty (m : Message) : String := m.file_ext.getD ""

/-- `utils.get_prefixed_filename`: date/time prefix plus the sanitized original
name, falling back to `file_<id><ext>` when the name is `None` or empty. -/
def get_prefixed_filename (m : Message) : String :=
  let sent_date := strftimeDate m.date
  match m.file_name with
  | some original_name =>
    if original_name = "" then
      sent_date ++ "_file_" ++ natToString m.id ++ extOrEmpty m
    else
      sent_date ++ "_" ++ sanitizeChars original_name
  | none => sent_date ++ "_file_" ++ natToString m.id ++ extOrEmpty m

/-- Read-only filesystem oracle: `os.path.exists` and the result of hashing the
bytes currently stored at a path (`none` models the I/O-error case in which
`compute_file_hash` logs and returns `None`). -/
structure FS where
  pathExists : String → Bool
  fileHash : String → Option String

/-- `utils.compute_file_hash`: SHA-256 of the file at `path`, or `None` on
error — supplied by the filesystem oracle. -/
def compute_file_hash (fs : FS) (path : String) : Option String :=
  fs.fileHash path

/-- `os.path.join` as used here (base folder plus one relative component). -/
def joinPath (a b : String) : String := a ++ "/" ++ b

/-- One row of the `file_status` table, minus the synthetic autoincrement `id`
and the two key columns `channel_id`/`message_id` (which key the ledger). -/
structure Row where
  created_at : String
  channel_title : Option String
  sender_id : Option Int
  sender_username : Option String
  original_name : Option String
  prefixed_name : Option String
  file_id : String
  file_size : Nat
  sent_at : String
  started_at : Option String
  downloaded_at : Option String
  file_path : Option String
  data_hash : Option String
deriving DecidableEq

/-- `(channel_id, message_id)`, the unique key of `file_status`. -/
abbrev Key := Int × Nat

/-- The `file_status` table. -/
abbrev Ledger := List (Key × Row)

/-- `SELECT ... WHERE channel_id = ? AND message_id = ?` followed by
`fetchone()`. -/
def findRow (cid : Int) (mid : Nat) (L : Ledger) : Option Row :=
  (L.find? (fun p => decide (p.1 = (cid, mid)))).map Prod.snd

/-- `UPDATE file_status SET ... WHERE channel_id = ? AND message_id = ?`:
rewrite every row whose key matches, leave the rest untouched. -/
def sqlUpdate (cid : Int) (mid : Nat) (f : Row → Row) (L : Ledger) : Ledger :=
  L.map (fun p => if p.1 = (cid, mid) then (p.1, f p.2) else p)

/-- `utils.update_started`: set `started_at` to the current timestamp. -/
def update_started (now : String) (message_id : Nat) (channel_id : Int)
    (L : Ledger) : Ledger :=
  sqlUpdate channel_id message_id (fun r => { r with started_at := some now }) L

/-- `utils.update_completed`: set the four completion columns in one row
update. -/
def update_completed (now : String) (message_id : Nat) (channel_id : Int)
    (pn fp dh : String) (L : Ledger) : Ledger :=
  sqlUpdate channel_id message_id
    (fun r => { r with prefixed_name := some pn, file_path := some fp,
                       data_hash := some dh, downloaded_at := some now }) L

/-- `get-files-list.reset_file_entry`: clear the completion fields (and
`started_at`) of the message's row. -/
def reset_file_entry (m : Message) (L : Ledger) : Ledger :=
  sqlUpdate m.chat_id m.id
    (fun r => { r with prefixed_name := none, file_path := none,
                       data_hash := none, downloaded_at := none,
                       started_at := none }) L

/-- The expected on-disk location of a message's file. -/
def expectedPath (target_path : String) (m : Message) : String :=
  joinPath target_path (get_prefixed_filename m)

/-- `get-files-list.verify_and_handle_existing`: returns the Python function's
boolean together with the ledger after its database effects. -/
def verify_and_handle_existing (fs : FS) (target_path : String) (m : Message)
    (L : Ledger) : Bool × Ledger :=
  let expected_path := expectedPath target_path m
  if fs.pathExists expected_path = false then (false, L)
  else
    match compute_file_hash fs expected_path with
    | none => (false, reset_file_entry m L)
    | some current_hash =>
      match findRow m.chat_id m.id L with
      | some r =>
        if r.data_hash = some current_hash ∧ r.downloaded_at ≠ none then
          (true, L)
        else (false, reset_file_entry m L)
      | none => (false, reset_file_entry m L)

/-- The freshly inserted Discovered row of `insert_or_handle_existing`. -/
def newRow (now : String) (m : Message) : Row :=
  { created_at := now
    channel_title := m.chat_title
    sender_id := m.sender.map Sender.id
    sender_username := m.sender.bind Sender.username
    original_name := m.file_name
    prefixed_name := none
    file_id := m.file_id
    file_size := m.file_size
    sent_at := isoformat m.date
    started_at := none
    downloaded_at := none
    file_path := none
    data_hash := none }

/-- The `INSERT INTO file_status (...)` of `insert_or_handle_existing`. -/
def insert_discovered (now : String) (m : Message) (L : Ledger) : Ledger :=
  L ++ [((m.chat_id, m.id), newRow now m)]

/-- `get-files-list.insert_or_handle_existing`, returning the ledger after all
database effects of one reconciliation of one message. -/
def insert_or_handle_existing (fs : FS) (target_path : String) (now : String)
    (m : Message) (L : Ledger) : Ledger :=
  match findRow m.chat_id m.id L with
  | some r =>
    if r.downloaded_at ≠ none then
      (verify_and_handle_existing fs target_path m L).2
    else L
  | none =>
    (verify_and_handle_existing fs target_path m
      (insert_discovered now m L)).2

/-- The body of the `scan_and_queue` loop for one message. -/
def scanStep (fs : FS) (target_path : String) (now : String) (L : Ledger)
    (m : Message) : Ledger :=
  if m.media then insert_or_handle_existing fs target_path now m L else L

/-- `get-files-list.scan_and_queue`: reconcile every media message of the
enumerated history against the ledger, oldest first. -/
def scan_and_queue (fs : FS) (target_path : String) (now : String)
    (msgs : List Message) (L : Ledger) : Ledger :=
  msgs.foldl (scanStep fs target_path now) L

/-- The keys selected by `load_all_pending` (`WHERE downloaded_at IS NULL`). -/
def pending_keys (L : Ledger) : List Key :=
  (L.filter (fun p => p.2.downloaded_at.isNone)).map Prod.fst

/-- Trace entries for the effectful steps a fetch worker performs. -/
inductive WAction where
  | started
  | download
  | hash
  | rename
  | completed
  | skip
deriving DecidableEq

/-- Create a path on disk (`download_media` writing its destination). -/
def insertPath (p : String) (disk : List String) : List String :=
  if p ∈ disk then disk else p :: disk

/-- `os.remove` (also the removal half of `os.rename`). -/
def removePath (p : String) (disk : List String) : List String :=
  disk.filter (fun q => q != p)

/-- One iteration of `downloader.download_worker` after a successful dequeue of
`(message_id, channel_id, target_path)`.  `lookupResult` is what
`client.get_messages` returned; `downloadOk` is whether `download_media`
succeeded (`tempWritten` says whether a failed transfer left bytes at the
temporary path); `hashResult` is what `compute_file_hash(temp_path)` returned;
`renameOk` is whether `os.rename` succeeded.  Returns the ledger, the disk and
the trace of performed actions. -/
def download_worker (lookupResult : Option Message) (downloadOk : Bool)
    (tempWritten : Bool) (hashResult : Option String) (renameOk : Bool)
    (now : String) (message_id : Nat) (channel_id : Int) (target_path : String)
    (L : Ledger) (disk : List String) : Ledger × List String × List WAction :=
  match lookupResult with
  | none => (L, disk, [])
  | some message =>
    if message.media = false then (L, disk, [])
    else
      let L1 := update_started now message_id channel_id L
      let prefixed_name := get_prefixed_filename message
      let final_path := joinPath target_path prefixed_name
      let temp_path := final_path ++ ".tmp"
      if downloadOk = false then
        let disk1 := if tempWritten then insertPath temp_path disk else disk
        (L1, removePath temp_path disk1, [WAction.started, WAction.download])
      else
        let disk1 := insertPath temp_path disk
        match hashResult with
        | none =>
          (L1, removePath temp_path disk1,
            [WAction.started, WAction.download, WAction.hash])
        | some data_hash =>
          if renameOk = false then
            (L1, removePath temp_path disk1,
              [WAction.started, WAction.download, WAction.hash, WAction.rename])
          else
            (update_completed now message_id channel_id prefixed_name
                final_path data_hash L1,
              insertPath final_path (removePath temp_path disk1),
              [WAction.started, WAction.download, WAction.hash, WAction.rename,
                WAction.completed])

/-- `file_name = message.file.name or f'file_{message.id}{message.file.ext or ""}'`
in `get-files-bot.download_media_safely`. -/
def bot_file_name (m : Message) : String :=
  match m.file_name with
  | some n =>
    if n = "" then "file_" ++ natToString m.id ++ extOrEmpty m else n
  | none => "file_" ++ natToString m.id ++ extOrEmpty m

/-- `get-files-bot.download_media_safely`: skip when the final path exists,
otherwise transfer to the temporary path and rename; on failure remove the
temporary file.  Returns the disk and the trace of performed actions. -/
def download_media_safely (m : Message) (download_path : String)
    (downloadOk : Bool) (tempWritten : Bool) (renameOk : Bool)
    (disk : List String) : List String × List WAction :=
  if m.media = false then (disk, [])
  else
    let final_path := joinPath download_path (bot_file_name m)
    if final_path ∈ disk then (disk, [WAction.skip])
    else
      let temp_path := final_path ++ ".tmp"
      if downloadOk = false then
        let disk1 := if tempWritten then insertPath temp_path disk else disk
        (removePath temp_path disk1, [WAction.download])
      else
        let disk1 := insertPath temp_path disk
        if renameOk = false then
          (removePath temp_path disk1, [WAction.download, WAction.rename])
        else
          (insertPath final_path (removePath temp_path disk1),
            [WAction.download, WAction.rename])

/-- `completed_at` (`downloaded_at`) non-null only if the three content
columns are non-null — the nullability half of the §3 ledger invariant. -/
def ledgerInv (L : Ledger) : Prop :=
  ∀ p ∈ L, p.2.downloaded_at ≠ none →
    (p.2.prefixed_name ≠ none ∧ p.2.file_path ≠ none ∧ p.2.data_hash ≠ none)

/-- No two rows share a `(channel_id, message_id)` key (the table's UNIQUE
constraint). -/
def keysNodup (L : Ledger) : Prop := (L.map Prod.fst).Nodup

/-- A concrete example message with an original name containing characters
illegal in filenames. -/
def mEx : Message :=
  { chat_id := -100, id := 7
    chat_title := some "My Channel"
    sender := some { id := 42, username := some "alice" }
    media := true
    file_name := some "a:b/c.bin"
    file_ext := some ".bin"
    file_id := "F7"
    file_size := 1024
    date := { year := 2024, month := 1, day := 2, hour := 3, minute := 4,
              second := 5 } }

/-- A completed row consistent with `mEx` having been downloaded earlier. -/
def rEx : Row :=
  { created_at := "2024-01-02T03:05:00"
    channel_title := some "My Channel"
    sender_id := some 42
    sender_username := some "alice"
    original_name := some "a:b/c.bin"
    prefixed_name := some (get_prefixed_filename mEx)
    file_id := "F7"
    file_size := 1024
    sent_at := isoformat mEx.date
    started_at := some "2024-01-02T03:04:59"
    downloaded_at := some "2024-01-02T03:05:01"
    file_path := some (expectedPath "./downloaded_files/My Channel" mEx)
    data_hash := some "deadbeef" }

/-- One-row ledger holding the completed row for `mEx`. -/
def LEx : Ledger := [((mEx.chat_id, mEx.id), rEx)]

/-- A filesystem on which no path exists. -/
def fsEmpty : FS := { pathExists := fun _ => false, fileHash := fun _ => none }

/-- A filesystem on which exactly the file expected for `mEx` under folder
`"d"` exists, with content hashing to `rEx`'s recorded hash. -/
def fsEx : FS :=
  { pathExists := fun p => decide (p = joinPath "d" (get_prefixed_filename mEx))
    fileHash := fun p =>
      if p = joinPath "d" (get_prefixed_filename mEx) then some "deadbeef"
      else none }

/-- The subset of illegal characters singled out by the spec's naming test. -/
def SPECIALS : List Char := ['/', ':', '*', '?']

/-- An example message carrying media but no original file name. -/
def mPlain : Message :=
  { chat_id := -100, id := 9
    chat_title := some "My Channel"
    sender := none
    media := true
    file_name := none
    file_ext := some ".jpg"
    file_id := "F9"
    file_size := 2048
    date := { year := 2023, month := 12, day := 31, hour := 23, minute := 59,
              second := 58 } }

/-- A message's ledger entry is in one of the three configurations on which a
reconciliation by `insert_or_handle_existing` performs no database write: the
row is pending, or its expected file is missing, or the row is completed and
the on-disk file hashes to its recorded `data_hash`. -/
def scanStateOK (fs : FS) (tp : String) (m : Message) (L : Ledger) : Prop :=
  match findRow m.chat_id m.id L with
  | none => False
  | some r =>
    r.downloaded_at = none
    ∨ fs.pathExists (expectedPath tp m) = false
    ∨ (r.downloaded_at ≠ none
        ∧ ∃ hsh, compute_file_hash fs (expectedPath tp m) = some hsh
            ∧ r.data_hash = some hsh)

instance decidableLedgerInv (L : Ledger) : Decidable (ledgerInv L) := by
  unfold ledgerInv
  infer_instance

instance decidableKeysNodup (L : Ledger) : Decidable (keysNodup L) := by
  unfold keysNodup
  infer_instance

/-! ### Helper lemmas about the ledger operations -/

theorem mem_removePath {q p : String} {disk : List String} :
    q ∈ removePath p disk ↔ q ∈ disk ∧ q ≠ p := by
  simp [removePath, List.mem_filter]

theorem not_mem_removePath_self (p : String) (disk : List String) :
    p ∉ removePath p disk := by
  simp [mem_removePath]

theorem findRow_cons (cid : Int) (mid : Nat) (q : Key × Row) (t : Ledger) :
    findRow cid mid (q :: t) =
      if q.1 = (cid, mid) then some q.2 else findRow cid mid t := by
  by_cases h : q.1 = (cid, mid) <;> simp [findRow, List.find?_cons, h]

theorem sqlUpdate_cons (cid : Int) (mid : Nat) (f : Row → Row) (q : Key × Row)
    (t : Ledger) :
    sqlUpdate cid mid f (q :: t) =
      (if q.1 = (cid, mid) then (q.1, f q.2) else q) :: sqlUpdate cid mid f t :=
  rfl

theorem findRow_sqlUpdate_self (cid : Int) (mid : Nat) (f : Row → Row)
    (L : Ledger) :
    findRow cid mid (sqlUpdate cid mid f L) = (findRow cid mid L).map f := by
  induction L with
  | nil => rfl
  | cons q t ih =>
    rw [sqlUpdate_cons]
    by_cases h : q.1 = (cid, mid)
    · simp [findRow_cons, h]
    · rw [if_neg h, findRow_cons, findRow_cons, if_neg h, if_neg h, ih]

theorem findRow_sqlUpdate_ne (cid' cid : Int) (mid' mid : Nat) (f : Row → Row)
    (L : Ledger) (h : (cid', mid') ≠ (cid, mid)) :
    findRow cid' mid' (sqlUpdate cid mid f L) = findRow cid' mid' L := by
  induction L with
  | nil => rfl
  | cons q t ih =>
    rw [sqlUpdate_cons]
    by_cases hp : q.1 = (cid, mid)
    · have hp' : ¬ q.1 = (cid', mid') := by
        rw [hp]; intro hc; exact h hc.symm
      rw [if_pos hp, findRow_cons, findRow_cons, if_neg hp', if_neg hp', ih]
    · rw [if_neg hp, findRow_cons, findRow_cons]
      by_cases hq : q.1 = (cid', mid')
      · rw [if_pos hq, if_pos hq]
      · rw [if_neg hq, if_neg hq, ih]

theorem sqlUpdate_of_absent (cid : Int) (mid : Nat) (f : Row → Row)
    (L : Ledger) (h : findRow cid mid L = none) : sqlUpdate cid mid f L = L := by
  have hnone : L.find? (fun p => decide (p.1 = (cid, mid))) = none := by
    unfold findRow at h
    exact Option.map_eq_none.mp h
  have hall := List.find?_eq_none.mp hnone
  have : ∀ p ∈ L, (fun p : Key × Row =>
      if p.1 = (cid, mid) then (p.1, f p.2) else p) p = p := by
    intro p hp
    have := hall p hp
    simp at this
    simp [this]
  calc sqlUpdate cid mid f L
      = L.map id := List.map_congr_left this
    _ = L := List.map_id L

theorem findRow_append_of_none (cid : Int) (mid : Nat) (L : Ledger)
    (k : Key) (r : Row) (h : findRow cid mid L = none) :
    findRow cid mid (L ++ [(k, r)]) =
      if k = (cid, mid) then some r else none := by
  have hnone : L.find? (fun p => decide (p.1 = (cid, mid))) = none := by
    unfold findRow at h
    exact Option.map_eq_none.mp h
  by_cases hk : k = (cid, mid) <;>
    simp [findRow, List.find?_append, hnone, hk]

theorem findRow_append_of_some (cid : Int) (mid : Nat) (L : Ledger)
    (k : Key) (r x : Row) (h : findRow cid mid L = some x) :
    findRow cid mid (L ++ [(k, r)]) = some x := by
  unfold findRow at h ⊢
  obtain ⟨p, hp, hsnd⟩ := Option.map_eq_some'.mp h
  simp [List.find?_append, hp, hsnd]

theorem map_fst_sqlUpdate (cid : Int) (mid : Nat) (f : Row → Row) (L : Ledger) :
    (sqlUpdate cid mid f L).map Prod.fst = L.map Prod.fst := by
  induction L with
  | nil => rfl
  | cons p t ih =>
    by_cases h : p.1 = (cid, mid) <;> simp [sqlUpdate, h] <;>
      simpa [sqlUpdate] using ih

/-! ### Character-level lemmas for the naming utility -/

theorem specials_subset : ∀ c ∈ SPECIALS, c ∈ ILLEGAL := by decide

theorem digitChar_not_illegal (n : Nat) : digitChar n ∉ ILLEGAL := by
  unfold digitChar
  split_ifs <;> decide

theorem natDigitsAux_not_illegal :
    ∀ (fuel n : Nat) (acc : List Char), (∀ c ∈ acc, c ∉ ILLEGAL) →
      ∀ c ∈ natDigitsAux fuel n acc, c ∉ ILLEGAL := by
  intro fuel
  induction fuel with
  | zero => intro n acc hacc; exact hacc
  | succ fuel ih =>
    intro n acc hacc c hc
    have hacc1 : ∀ c ∈ digitChar (n % 10) :: acc, c ∉ ILLEGAL := by
      intro c hc
      rcases List.mem_cons.mp hc with h | h
      · subst h; exact digitChar_not_illegal _
      · exact hacc c h
    simp only [natDigitsAux] at hc
    by_cases h : n < 10
    · rw [if_pos h] at hc
      exact hacc1 c hc
    · rw [if_neg h] at hc
      exact ih (n / 10) _ hacc1 c hc

theorem natToString_not_illegal (n : Nat) :
    ∀ c ∈ (natToString n).data, c ∉ ILLEGAL :=
  natDigitsAux_not_illegal (n + 1) n [] (by intro c hc; cases hc)

theorem padZero_not_illegal (w n : Nat) :
    ∀ c ∈ (padZero w n).data, c ∉ ILLEGAL := by
  intro c hc
  simp only [padZero] at hc
  rcases List.mem_append.mp hc with h | h
  · have := List.eq_of_mem_replicate h
    subst this; decide
  · exact natDigitsAux_not_illegal (n + 1) n [] (by intro c hc; cases hc) c h

theorem append_chars {P : Char → Prop} {s t : String}
    (hs : ∀ c ∈ s.data, P c) (ht : ∀ c ∈ t.data, P c) :
    ∀ c ∈ (s ++ t).data, P c := by
  intro c hc
  rw [String.data_append] at hc
  rcases List.mem_append.mp hc with h | h
  exacts [hs c h, ht c h]

theorem dash_not_illegal : ∀ c ∈ ("-" : String).data, c ∉ ILLEGAL := by decide

theorem underscore_not_illegal : ∀ c ∈ ("_" : String).data, c ∉ ILLEGAL := by
  decide

theorem strftimeDate_not_illegal (d : DateTime) :
    ∀ c ∈ (strftimeDate d).data, c ∉ ILLEGAL := by
  unfold strftimeDate
  exact append_chars (append_chars (append_chars (append_chars (append_chars
    (append_chars (append_chars (append_chars (append_chars (append_chars
      (padZero_not_illegal 4 d.year) dash_not_illegal)
      (padZero_not_illegal 2 d.month)) dash_not_illegal)
      (padZero_not_illegal 2 d.day)) underscore_not_illegal)
      (padZero_not_illegal 2 d.hour)) dash_not_illegal)
      (padZero_not_illegal 2 d.minute)) dash_not_illegal)
      (padZero_not_illegal 2 d.second)

theorem sanitizeChars_not_illegal (s : String) :
    ∀ c ∈ (sanitizeChars s).data, c ∉ ILLEGAL := by
  intro c hc
  simp only [sanitizeChars, List.mem_map] at hc
  obtain ⟨a, _, ha⟩ := hc
  by_cases h : a ∈ ILLEGAL
  · rw [if_pos h] at ha; subst ha; decide
  · rw [if_neg h] at ha; subst ha; exact h

/-! ### Claims C3 and C7 : the naming utility -/

/-- C3 counterexample: `sanitize_name` does NOT map null/empty input to a
fixed fallback label — it maps both to `None`, which is no label at all. -/
theorem claim3_cex :
    sanitize_name none = none ∧ sanitize_name (some "") = none
      ∧ ∀ fallbackLabel : String, sanitize_name none ≠ some fallbackLabel := by
  refine ⟨rfl, rfl, ?_⟩
  intro fb h
  simp [sanitize_name] at h

/-- C3 (amended): `sanitize_name` maps null and empty (falsy) input to `None`
(callers substitute the fallback `"Unknown"` themselves); every non-empty
input is stripped of surrounding whitespace and each character illegal in path
segments is replaced by the placeholder `'_'`, all other characters kept in
place. -/
theorem claim3_sanitize :
    sanitize_name none = none
  ∧ sanitize_name (some "") = none
  ∧ (∀ s : String, s ≠ "" →
      ∃ t, sanitize_name (some s) = some t
        ∧ (∀ c ∈ t.data, c ∉ ILLEGAL)
        ∧ t.data.length = s.trim.data.length
        ∧ (∀ (i : Nat) (c : Char), s.trim.data[i]? = some c →
            t.data[i]? = some (if c ∈ ILLEGAL then '_' else c))) := by
  refine ⟨rfl, rfl, ?_⟩
  intro s hs
  refine ⟨sanitizeChars s.trim, by simp [sanitize_name, hs], ?_, ?_, ?_⟩
  · exact sanitizeChars_not_illegal s.trim
  · simp [sanitizeChars]
  · intro i c hc
    simp [sanitizeChars, List.getElem?_map, hc]

/-- C3 witness: the amended theorem applied to the input `" a:b "`. -/
theorem claim3_witness :
    (" a:b " : String) ≠ ""
  ∧ ∃ t, sanitize_name (some " a:b ") = some t
      ∧ (∀ c ∈ t.data, c ∉ ILLEGAL)
      ∧ t.data.length = (" a:b " : String).trim.data.length
      ∧ (∀ (i : Nat) (c : Char), (" a:b " : String).trim.data[i]? = some c →
          t.data[i]? = some (if c ∈ ILLEGAL then '_' else c)) :=
  ⟨by decide, claim3_sanitize.2.2 " a:b " (by decide)⟩

/-- C7: `get_prefixed_filename` is pure (identical inputs give identical
output); when the original name contains any of `/:*?` the output contains
none of those characters; and with no (or an empty, hence falsy) original
name the output is the timestamp prefix followed by `file_<id><ext>`. -/
theorem claim7_derive_filename :
    (∀ m₁ m₂ : Message, m₁ = m₂ →
        get_prefixed_filename m₁ = get_prefixed_filename m₂)
  ∧ (∀ (m : Message) (nm : String), m.file_name = some nm →
        (∃ c ∈ nm.data, c ∈ SPECIALS) →
        ∀ c ∈ (get_prefixed_filename m).data, c ∉ SPECIALS)
  ∧ (∀ m : Message, (m.file_name = none ∨ m.file_name = some "") →
        get_prefixed_filename m =
          strftimeDate m.date ++ "_file_" ++ natToString m.id ++ extOrEmpty m) := by
  refine ⟨fun m₁ m₂ h => congrArg _ h, ?_, ?_⟩
  · intro m nm hname hspecial
    have hne : nm ≠ "" := by
      rintro rfl
      obtain ⟨c, hc, _⟩ := hspecial
      cases hc
    have hout : get_prefixed_filename m =
        strftimeDate m.date ++ "_" ++ sanitizeChars nm := by
      unfold get_prefixed_filename
      rw [hname]
      simp [hne]
    rw [hout]
    intro c hc hcs
    have hill : c ∉ ILLEGAL :=
      append_chars (append_chars (strftimeDate_not_illegal m.date)
        underscore_not_illegal) (sanitizeChars_not_illegal nm) c hc
    exact hill (specials_subset c hcs)
  · intro m hm
    unfold get_prefixed_filename
    rcases hm with h | h <;> rw [h]
    simp

/-! ### Claims C5, C9, C10 : ledger write operations -/

/-- C5: every ledger write operation — insert of a Discovered row,
mark-started, mark-completed, reset — preserves the invariant that
`downloaded_at` is non-null only if `prefixed_name`, `file_path` and
`data_hash` are all non-null. -/
theorem claim5_ledger_invariant :
    ∀ (now : String) (m : Message) (mid : Nat) (cid : Int) (pn fp dh : String)
      (L : Ledger), ledgerInv L →
        ledgerInv (insert_discovered now m L)
      ∧ ledgerInv (update_started now mid cid L)
      ∧ ledgerInv (update_completed now mid cid pn fp dh L)
      ∧ ledgerInv (reset_file_entry m L) := by
  intro now m mid cid pn fp dh L hL
  refine ⟨?_, ?_, ?_, ?_⟩
  · intro p hp hdl
    rcases List.mem_append.mp hp with h | h
    · exact hL p h hdl
    · simp at h
      rw [h] at hdl
      simp [newRow] at hdl
  · intro p hp hdl
    obtain ⟨q, hq, hgq⟩ := List.mem_map.mp hp
    by_cases hk : q.1 = (cid, mid)
    · rw [if_pos hk] at hgq
      rw [← hgq] at hdl ⊢
      exact hL q hq hdl
    · rw [if_neg hk] at hgq
      rw [← hgq] at hdl ⊢
      exact hL q hq hdl
  · intro p hp hdl
    obtain ⟨q, hq, hgq⟩ := List.mem_map.mp hp
    by_cases hk : q.1 = (cid, mid)
    · rw [if_pos hk] at hgq
      rw [← hgq]
      simp
    · rw [if_neg hk] at hgq
      rw [← hgq] at hdl ⊢
      exact hL q hq hdl
  · intro p hp hdl
    obtain ⟨q, hq, hgq⟩ := List.mem_map.mp hp
    by_cases hk : q.1 = (m.chat_id, m.id)
    · rw [if_pos hk] at hgq
      rw [← hgq] at hdl
      simp at hdl
    · rw [if_neg hk] at hgq
      rw [← hgq] at hdl ⊢
      exact hL q hq hdl

/-- C5 witness: the theorem applied to the one-row completed ledger `LEx`. -/
theorem claim5_witness :
    ledgerInv LEx
  ∧ (ledgerInv (insert_discovered "t" mPlain LEx)
    ∧ ledgerInv (update_started "t" 7 (-100) LEx)
    ∧ ledgerInv (update_completed "t" 7 (-100) "p" "f" "h" LEx)
    ∧ ledgerInv (reset_file_entry mPlain LEx)) :=
  ⟨by decide, claim5_ledger_invariant "t" mPlain 7 (-100) "p" "f" "h" LEx
    (by decide)⟩

/-- C9: `update_completed` touches only the rows keyed `(channel_id,
message_id)` and, on those, only the four columns `prefixed_name`,
`file_path`, `data_hash` and `downloaded_at`; every other column and every
other row is unchanged. -/
theorem claim9_update_completed_frame :
    ∀ (now : String) (mid : Nat) (cid : Int) (pn fp dh : String) (L : Ledger)
      (i : Nat),
      (L[i]? = none → (update_completed now mid cid pn fp dh L)[i]? = none)
    ∧ (∀ k r, L[i]? = some (k, r) → k ≠ (cid, mid) →
        (update_completed now mid cid pn fp dh L)[i]? = some (k, r))
    ∧ (∀ k r, L[i]? = some (k, r) → k = (cid, mid) →
        ∃ r', (update_completed now mid cid pn fp dh L)[i]? = some (k, r')
          ∧ r'.created_at = r.created_at
          ∧ r'.channel_title = r.channel_title
          ∧ r'.sender_id = r.sender_id
          ∧ r'.sender_username = r.sender_username
          ∧ r'.original_name = r.original_name
          ∧ r'.file_id = r.file_id
          ∧ r'.file_size = r.file_size
          ∧ r'.sent_at = r.sent_at
          ∧ r'.started_at = r.started_at
          ∧ r'.prefixed_name = some pn
          ∧ r'.file_path = some fp
          ∧ r'.data_hash = some dh
          ∧ r'.downloaded_at = some now) := by
  intro now mid cid pn fp dh L i
  refine ⟨?_, ?_, ?_⟩
  · intro h
    simp [update_completed, sqlUpdate, List.getElem?_map, h]
  · intro k r h hk
    simp [update_completed, sqlUpdate, List.getElem?_map, h, hk]
  · intro k r h hk
    subst hk
    have hset : (update_completed now mid cid pn fp dh L)[i]? =
        some ((cid, mid),
          { r with prefixed_name := some pn, file_path := some fp,
                   data_hash := some dh, downloaded_at := some now }) := by
      simp [update_completed, sqlUpdate, List.getElem?_map, h]
    exact ⟨_, hset, rfl, rfl, rfl, rfl, rfl, rfl, rfl, rfl, rfl, rfl, rfl, rfl,
      rfl⟩

/-- C9 witness: the theorem applied to the one-row ledger `LEx` at index 0
(matching key) and index 1 (absent). -/
theorem claim9_witness :
    LEx[0]? = some ((mEx.chat_id, mEx.id), rEx)
  ∧ (mEx.chat_id, mEx.id) = ((-100 : Int), 7)
  ∧ (∃ r', (update_completed "t" 7 (-100) "p" "f" "h" LEx)[0]? =
        some ((mEx.chat_id, mEx.id), r')
      ∧ r'.created_at = rEx.created_at
      ∧ r'.channel_title = rEx.channel_title
      ∧ r'.sender_id = rEx.sender_id
      ∧ r'.sender_username = rEx.sender_username
      ∧ r'.original_name = rEx.original_name
      ∧ r'.file_id = rEx.file_id
      ∧ r'.file_size = rEx.file_size
      ∧ r'.sent_at = rEx.sent_at
      ∧ r'.started_at = rEx.started_at
      ∧ r'.prefixed_name = some "p"
      ∧ r'.file_path = some "f"
      ∧ r'.data_hash = some "h"
      ∧ r'.downloaded_at = some "t")
  ∧ (LEx[1]? = none → (update_completed "t" 7 (-100) "p" "f" "h" LEx)[1]? = none) :=
  ⟨rfl, rfl,
   (claim9_update_completed_frame "t" 7 (-100) "p" "f" "h" LEx 0).2.2
     (mEx.chat_id, mEx.id) rEx rfl rfl,
   (claim9_update_completed_frame "t" 7 (-100) "p" "f" "h" LEx 1).1⟩

/-- C10: on a key with no existing row, `update_started`, `update_completed`
and `reset_file_entry` leave the ledger entirely unchanged — none of them ever
creates a row. -/
theorem claim10_absent_key_no_op :
    ∀ (now : String) (mid : Nat) (cid : Int) (pn fp dh : String) (m : Message)
      (L : Ledger), m.chat_id = cid → m.id = mid →
      findRow cid mid L = none →
        update_started now mid cid L = L
      ∧ update_completed now mid cid pn fp dh L = L
      ∧ reset_file_entry m L = L := by
  intro now mid cid pn fp dh m L hcid hmid habsent
  refine ⟨sqlUpdate_of_absent _ _ _ _ habsent,
    sqlUpdate_of_absent _ _ _ _ habsent, ?_⟩
  unfold reset_file_entry
  rw [hcid, hmid]
  exact sqlUpdate_of_absent _ _ _ _ habsent

/-- C10 witness: the theorem applied to the key `(5, 5)`, absent from `LEx`. -/
theorem claim10_witness :
    findRow 5 5 LEx = none
  ∧ (update_started "t" 5 5 LEx = LEx
    ∧ update_completed "t" 5 5 "p" "f" "h" LEx = LEx
    ∧ reset_file_entry { mEx with chat_id := 5, id := 5 } LEx = LEx) :=
  ⟨by decide,
   claim10_absent_key_no_op "t" 5 5 "p" "f" "h"
     { mEx with chat_id := 5, id := 5 } LEx rfl rfl (by decide)⟩

/-! ### Evaluation lemmas for the download worker -/

theorem download_worker_dl_fail (m : Message) (tW : Bool) (hr : Option String)
    (rOk : Bool) (now : String) (mid : Nat) (cid : Int) (tp : String)
    (L : Ledger) (disk : List String) (hm : m.media = true) :
    download_worker (some m) false tW hr rOk now mid cid tp L disk =
      (update_started now mid cid L,
       removePath (joinPath tp (get_prefixed_filename m) ++ ".tmp")
         (if tW then
            insertPath (joinPath tp (get_prefixed_filename m) ++ ".tmp") disk
          else disk),
       [WAction.started, WAction.download]) := by
  simp [download_worker, hm]

theorem download_worker_hash_fail (m : Message) (tW rOk : Bool) (now : String)
    (mid : Nat) (cid : Int) (tp : String) (L : Ledger) (disk : List String)
    (hm : m.media = true) :
    download_worker (some m) true tW none rOk now mid cid tp L disk =
      (update_started now mid cid L,
       removePath (joinPath tp (get_prefixed_filename m) ++ ".tmp")
         (insertPath (joinPath tp (get_prefixed_filename m) ++ ".tmp") disk),
       [WAction.started, WAction.download, WAction.hash]) := by
  simp [download_worker, hm]

theorem download_worker_rename_fail (m : Message) (tW : Bool) (dh : String)
    (now : String) (mid : Nat) (cid : Int) (tp : String) (L : Ledger)
    (disk : List String) (hm : m.media = true) :
    download_worker (some m) true tW (some dh) false now mid cid tp L disk =
      (update_started now mid cid L,
       removePath (joinPath tp (get_prefixed_filename m) ++ ".tmp")
         (insertPath (joinPath tp (get_prefixed_filename m) ++ ".tmp") disk),
       [WAction.started, WAction.download, WAction.hash, WAction.rename]) := by
  simp [download_worker, hm]

/-! ### Claims C8, C4, C2 : the fetch worker -/

/-- C8: when a dequeued item resolves to a gone message or one with no media,
the worker discards it with no ledger change, no disk change and no action
performed at all (in particular no mark-started, mark-completed or reset). -/
theorem claim8_vanished_item :
    ∀ (lookupResult : Option Message) (dOk tW : Bool) (hr : Option String)
      (rOk : Bool) (now : String) (mid : Nat) (cid : Int) (tp : String)
      (L : Ledger) (disk : List String),
      (lookupResult = none ∨ ∃ m, lookupResult = some m ∧ m.media = false) →
      download_worker lookupResult dOk tW hr rOk now mid cid tp L disk =
        (L, disk, []) := by
  intro lookupResult dOk tW hr rOk now mid cid tp L disk h
  rcases h with h | ⟨m, hm, hmedia⟩
  · subst h; rfl
  · subst hm; simp [download_worker, hmedia]

/-- C8 witness: the theorem applied to a vanished message and to a message
without media. -/
theorem claim8_witness :
    ((none : Option Message) = none
      ∨ ∃ m, (none : Option Message) = some m ∧ m.media = false)
  ∧ download_worker none true true none true "t" 7 (-100) "d" LEx ["x"] =
      (LEx, ["x"], [])
  ∧ download_worker (some { mEx with media := false }) true true none true
      "t" 7 (-100) "d" LEx ["x"] = (LEx, ["x"], []) :=
  ⟨Or.inl rfl,
   claim8_vanished_item none true true none true "t" 7 (-100) "d" LEx ["x"]
     (Or.inl rfl),
   claim8_vanished_item (some { mEx with media := false }) true true none true
     "t" 7 (-100) "d" LEx ["x"] (Or.inr ⟨_, rfl, rfl⟩)⟩

/-- C4: if the transfer, the hash computation or the rename fails, the worker
deletes the temporary file, never marks the row Completed, and leaves the
ledger exactly as `update_started` left it — the row keeps its pre-attempt
completion state and is merely marked Started. -/
theorem claim4_failure_cleanup :
    ∀ (m : Message) (dOk tW : Bool) (hr : Option String) (rOk : Bool)
      (now : String) (mid : Nat) (cid : Int) (tp : String) (L : Ledger)
      (disk : List String) (r : Row),
      m.media = true →
      (dOk = false ∨ hr = none ∨ rOk = false) →
      findRow cid mid L = some r →
      (download_worker (some m) dOk tW hr rOk now mid cid tp L disk).1 =
          update_started now mid cid L
      ∧ findRow cid mid
          (download_worker (some m) dOk tW hr rOk now mid cid tp L disk).1 =
          some { r with started_at := some now }
      ∧ (joinPath tp (get_prefixed_filename m) ++ ".tmp") ∉
          (download_worker (some m) dOk tW hr rOk now mid cid tp L disk).2.1
      ∧ WAction.completed ∉
          (download_worker (some m) dOk tW hr rOk now mid cid tp L disk).2.2 := by
  intro m dOk tW hr rOk now mid cid tp L disk r hm hfail hrow
  have hfind : findRow cid mid (update_started now mid cid L) =
      some { r with started_at := some now } := by
    unfold update_started
    rw [findRow_sqlUpdate_self, hrow]
    rfl
  by_cases hd : dOk = false
  · subst hd
    rw [download_worker_dl_fail m tW hr rOk now mid cid tp L disk hm]
    exact ⟨rfl, hfind, not_mem_removePath_self _ _, by simp⟩
  · have hd' : dOk = true := by
      cases dOk
      · exact absurd rfl hd
      · rfl
    subst hd'
    cases hr with
    | none =>
      rw [download_worker_hash_fail m tW rOk now mid cid tp L disk hm]
      exact ⟨rfl, hfind, not_mem_removePath_self _ _, by simp⟩
    | some dh =>
      have hr' : rOk = false := by
        rcases hfail with h | h | h
        · exact absurd h hd
        · exact absurd h (by simp)
        · exact h
      subst hr'
      rw [download_worker_rename_fail m tW dh now mid cid tp L disk hm]
      exact ⟨rfl, hfind, not_mem_removePath_self _ _, by simp⟩

/-- C4 witness: the theorem applied to a hash failure on `mEx` against the
ledger `LEx`. -/
theorem claim4_witness :
    mEx.media = true
  ∧ ((false : Bool) = false ∨ (none : Option String) = none
      ∨ (true : Bool) = false)
  ∧ findRow (-100) 7 LEx = some rEx
  ∧ ((download_worker (some mEx) false true none true "t" 7 (-100) "d" LEx
        []).1 = update_started "t" 7 (-100) LEx
    ∧ findRow (-100) 7
        (download_worker (some mEx) false true none true "t" 7 (-100) "d" LEx
          []).1 = some { rEx with started_at := some "t" }
    ∧ (joinPath "d" (get_prefixed_filename mEx) ++ ".tmp") ∉
        (download_worker (some mEx) false true none true "t" 7 (-100) "d" LEx
          []).2.1
    ∧ WAction.completed ∉
        (download_worker (some mEx) false true none true "t" 7 (-100) "d" LEx
          []).2.2) :=
  ⟨rfl, Or.inl rfl, by decide,
   claim4_failure_cleanup mEx false true none true "t" 7 (-100) "d" LEx [] rEx
     rfl (Or.inl rfl) (by decide)⟩

/-- C2 counterexample: with the final path already present on disk and every
outcome successful, `downloader.py`'s `download_worker` still performs the
download, hash and rename steps — it has no existence pre-check. -/
theorem claim2_cex :
    joinPath "d" (get_prefixed_filename mEx) ∈
      [joinPath "d" (get_prefixed_filename mEx)]
  ∧ WAction.download ∈
      (download_worker (some mEx) true false (some "h2") true "t" 7 (-100) "d"
        LEx [joinPath "d" (get_prefixed_filename mEx)]).2.2
  ∧ WAction.hash ∈
      (download_worker (some mEx) true false (some "h2") true "t" 7 (-100) "d"
        LEx [joinPath "d" (get_prefixed_filename mEx)]).2.2
  ∧ WAction.rename ∈
      (download_worker (some mEx) true false (some "h2") true "t" 7 (-100) "d"
        LEx [joinPath "d" (get_prefixed_filename mEx)]).2.2 := by
  decide

/-- C2 (amended): the already-satisfied pre-check is performed by
`get-files-bot.py`'s worker `download_media_safely`, which skips the item
wholesale when the final path exists; `downloader.py`'s ledger-driven
`download_worker` has no such pre-check and always performs the transfer for
a dequeued media message. -/
theorem claim2_precheck :
    (∀ (m : Message) (dp : String) (dOk tW rOk : Bool) (disk : List String),
        m.media = true → joinPath dp (bot_file_name m) ∈ disk →
        download_media_safely m dp dOk tW rOk disk = (disk, [WAction.skip]))
  ∧ (∀ (m : Message) (dOk tW : Bool) (hr : Option String) (rOk : Bool)
        (now : String) (mid : Nat) (cid : Int) (tp : String) (L : Ledger)
        (disk : List String), m.media = true →
        WAction.download ∈
          (download_worker (some m) dOk tW hr rOk now mid cid tp L
            disk).2.2) := by
  constructor
  · intro m dp dOk tW rOk disk hm hmem
    simp [download_media_safely, hm, hmem]
  · intro m dOk tW hr rOk now mid cid tp L disk hm
    cases dOk
    · rw [download_worker_dl_fail m tW hr rOk now mid cid tp L disk hm]
      simp
    · cases hr with
      | none =>
        rw [download_worker_hash_fail m tW rOk now mid cid tp L disk hm]
        simp
      | some dh =>
        cases rOk
        · rw [download_worker_rename_fail m tW dh now mid cid tp L disk hm]
          simp
        · simp [download_worker, hm]

/-- C2 witness: the amended theorem applied to `mEx`, with the bot's final
path on disk (skip) and the ledger worker downloading. -/
theorem claim2_witness :
    mEx.media = true
  ∧ joinPath "d" (bot_file_name mEx) ∈ [joinPath "d" (bot_file_name mEx)]
  ∧ download_media_safely mEx "d" true false true
      [joinPath "d" (bot_file_name mEx)] =
      ([joinPath "d" (bot_file_name mEx)], [WAction.skip])
  ∧ WAction.download ∈
      (download_worker (some mEx) true false (some "h2") true "t" 7 (-100) "d"
        LEx []).2.2 :=
  ⟨rfl, by decide,
   claim2_precheck.1 mEx "d" true false true
     [joinPath "d" (bot_file_name mEx)] rfl (by decide),
   claim2_precheck.2 mEx true false (some "h2") true "t" 7 (-100) "d" LEx []
     rfl⟩

/-! ### Claim C1 : Scanner behaviour on a completed row whose file is gone -/

/-- C1: evaluation of the code at the failing input.  `LEx` holds a completed
row for `mEx`, no file exists on disk, yet a full Scanner pass leaves the
ledger unchanged: the row is NOT Reset, keeps `downloaded_at`, and the pending
set stays empty — the item is never re-queued, contradicting both the spec and
the code's own `File missing → will be queued` comment. -/
theorem claim1_missing_file_not_reset :
    fsEmpty.pathExists (expectedPath "d" mEx) = false
  ∧ findRow mEx.chat_id mEx.id LEx = some rEx
  ∧ rEx.downloaded_at ≠ none
  ∧ scan_and_queue fsEmpty "d" "t" [mEx] LEx = LEx
  ∧ pending_keys (scan_and_queue fsEmpty "d" "t" [mEx] LEx) = [] := by
  decide

/-- C7 witness: the theorem applied to `mEx` (name `"a:b/c.bin"`, containing
`:` and `/`) and to `mPlain` (no original name). -/
theorem claim7_witness :
    mEx.file_name = some "a:b/c.bin"
  ∧ (∃ c ∈ ("a:b/c.bin" : String).data, c ∈ SPECIALS)
  ∧ (∀ c ∈ (get_prefixed_filename mEx).data, c ∉ SPECIALS)
  ∧ (mPlain.file_name = none ∨ mPlain.file_name = some "")
  ∧ get_prefixed_filename mPlain =
      strftimeDate mPlain.date ++ "_file_" ++ natToString mPlain.id
        ++ extOrEmpty mPlain :=
  ⟨rfl, by decide,
   claim7_derive_filename.2.1 mEx "a:b/c.bin" rfl (by decide),
   Or.inl rfl,
   claim7_derive_filename.2.2 mPlain (Or.inl rfl)⟩

/-! ### Claim C6 : idempotence of the Scanner's reconciliation pass -/

theorem findRow_append_other (cid : Int) (mid : Nat) (L : Ledger) (k : Key)
    (r : Row) (hk : k ≠ (cid, mid)) :
    findRow cid mid (L ++ [(k, r)]) = findRow cid mid L := by
  cases hcm : findRow cid mid L with
  | none => rw [findRow_append_of_none cid mid L k r hcm, if_neg hk]
  | some x => rw [findRow_append_of_some cid mid L k r x hcm]

theorem verify_shape (fs : FS) (tp : String) (m : Message) (L : Ledger) :
    (verify_and_handle_existing fs tp m L).2 = L
  ∨ (verify_and_handle_existing fs tp m L).2 = reset_file_entry m L := by
  unfold verify_and_handle_existing
  by_cases hex : fs.pathExists (expectedPath tp m) = false
  · rw [if_pos hex]
    exact Or.inl rfl
  · rw [if_neg hex]
    cases hh : compute_file_hash fs (expectedPath tp m) with
    | none => exact Or.inr rfl
    | some hsh =>
      dsimp only
      cases hfr : findRow m.chat_id m.id L with
      | none => exact Or.inr rfl
      | some r =>
        dsimp only
        by_cases hc : r.data_hash = some hsh ∧ r.downloaded_at ≠ none
        · rw [if_pos hc]
          exact Or.inl rfl
        · rw [if_neg hc]
          exact Or.inr rfl

theorem verify_findRow_other (fs : FS) (tp : String) (m : Message)
    (L : Ledger) (cid : Int) (mid : Nat)
    (hk : (cid, mid) ≠ (m.chat_id, m.id)) :
    findRow cid mid (verify_and_handle_existing fs tp m L).2 =
      findRow cid mid L := by
  rcases verify_shape fs tp m L with h | h <;> rw [h]
  exact findRow_sqlUpdate_ne cid m.chat_id mid m.id _ L hk

theorem iohe_findRow_other (fs : FS) (tp now : String) (m : Message)
    (L : Ledger) (cid : Int) (mid : Nat)
    (hk : (cid, mid) ≠ (m.chat_id, m.id)) :
    findRow cid mid (insert_or_handle_existing fs tp now m L) =
      findRow cid mid L := by
  unfold insert_or_handle_existing
  cases hfind : findRow m.chat_id m.id L with
  | some r =>
    dsimp only
    by_cases hdl : r.downloaded_at ≠ none
    · rw [if_pos hdl]
      exact verify_findRow_other fs tp m L cid mid hk
    · rw [if_neg hdl]
  | none =>
    dsimp only
    rw [verify_findRow_other fs tp m _ cid mid hk]
    unfold insert_discovered
    exact findRow_append_other cid mid L _ _ (fun h => hk h.symm)

theorem stateOK_of_pending (fs : FS) (tp : String) (m : Message) (L : Ledger)
    (r : Row) (hfind : findRow m.chat_id m.id L = some r)
    (hdl : r.downloaded_at = none) : scanStateOK fs tp m L := by
  unfold scanStateOK
  rw [hfind]
  exact Or.inl hdl

theorem findRow_reset_self (m : Message) (L : Ledger) :
    findRow m.chat_id m.id (reset_file_entry m L) =
      (findRow m.chat_id m.id L).map
        (fun r => { r with prefixed_name := none, file_path := none,
                           data_hash := none, downloaded_at := none,
                           started_at := none }) :=
  findRow_sqlUpdate_self m.chat_id m.id _ L

theorem stateOK_of_reset (fs : FS) (tp : String) (m : Message) (L : Ledger)
    (r : Row) (hfind : findRow m.chat_id m.id L = some r) :
    scanStateOK fs tp m (reset_file_entry m L) := by
  have h2 : findRow m.chat_id m.id (reset_file_entry m L) =
      some { r with prefixed_name := none, file_path := none,
                    data_hash := none, downloaded_at := none,
                    started_at := none } := by
    rw [findRow_reset_self, hfind]
    rfl
  exact stateOK_of_pending fs tp m _ _ h2 rfl

theorem iohe_of_stateOK (fs : FS) (tp : String) (m : Message) (L : Ledger)
    (h : scanStateOK fs tp m L) (now : String) :
    insert_or_handle_existing fs tp now m L = L := by
  unfold insert_or_handle_existing
  cases hfind : findRow m.chat_id m.id L with
  | none =>
    unfold scanStateOK at h
    rw [hfind] at h
    exact h.elim
  | some r =>
    unfold scanStateOK at h
    rw [hfind] at h
    dsimp only at h
    dsimp only
    by_cases hdl : r.downloaded_at = none
    · rw [if_neg (by simp [hdl])]
    · rw [if_pos (by simpa using hdl)]
      rcases h with h | h | h
      · exact absurd h hdl
      · unfold verify_and_handle_existing
        rw [if_pos h]
      · obtain ⟨hdl2, hsh, hhash, hdata⟩ := h
        by_cases hex : fs.pathExists (expectedPath tp m) = false
        · unfold verify_and_handle_existing
          rw [if_pos hex]
        · unfold verify_and_handle_existing
          rw [if_neg hex, hhash]
          dsimp only
          rw [hfind]
          dsimp only
          rw [if_pos ⟨hdata, hdl2⟩]

theorem findRow_insert_self (now : String) (m : Message) (L : Ledger)
    (hfind : findRow m.chat_id m.id L = none) :
    findRow m.chat_id m.id (insert_discovered now m L) = some (newRow now m) := by
  unfold insert_discovered
  rw [findRow_append_of_none _ _ _ _ _ hfind, if_pos rfl]

theorem stateOK_after (fs : FS) (tp now : String) (m : Message) (L : Ledger) :
    scanStateOK fs tp m (insert_or_handle_existing fs tp now m L) := by
  unfold insert_or_handle_existing
  cases hfind : findRow m.chat_id m.id L with
  | some r =>
    dsimp only
    by_cases hdl : r.downloaded_at = none
    · rw [if_neg (by simp [hdl])]
      exact stateOK_of_pending fs tp m L r hfind hdl
    · rw [if_pos (by simpa using hdl)]
      by_cases hex : fs.pathExists (expectedPath tp m) = false
      · have hv : (verify_and_handle_existing fs tp m L).2 = L := by
          unfold verify_and_handle_existing
          rw [if_pos hex]
        rw [hv]
        unfold scanStateOK
        rw [hfind]
        exact Or.inr (Or.inl hex)
      · cases hhash : compute_file_hash fs (expectedPath tp m) with
        | none =>
          have hv : (verify_and_handle_existing fs tp m L).2 =
              reset_file_entry m L := by
            unfold verify_and_handle_existing
            rw [if_neg hex, hhash]
          rw [hv]
          exact stateOK_of_reset fs tp m L r hfind
        | some hsh =>
          by_cases hc : r.data_hash = some hsh ∧ r.downloaded_at ≠ none
          · have hv : (verify_and_handle_existing fs tp m L).2 = L := by
              unfold verify_and_handle_existing
              rw [if_neg hex, hhash]
              dsimp only
              rw [hfind]
              dsimp only
              rw [if_pos hc]
            rw [hv]
            unfold scanStateOK
            rw [hfind]
            exact Or.inr (Or.inr ⟨hc.2, hsh, hhash, hc.1⟩)
          · have hv : (verify_and_handle_existing fs tp m L).2 =
                reset_file_entry m L := by
              unfold verify_and_handle_existing
              rw [if_neg hex, hhash]
              dsimp only
              rw [hfind]
              dsimp only
              rw [if_neg hc]
            rw [hv]
            exact stateOK_of_reset fs tp m L r hfind
  | none =>
    have hfind1 : findRow m.chat_id m.id (insert_discovered now m L) =
        some (newRow now m) := findRow_insert_self now m L hfind
    dsimp only
    by_cases hex : fs.pathExists (expectedPath tp m) = false
    · have hv : (verify_and_handle_existing fs tp m
          (insert_discovered now m L)).2 = insert_discovered now m L := by
        unfold verify_and_handle_existing
        rw [if_pos hex]
      rw [hv]
      exact stateOK_of_pending fs tp m _ _ hfind1 rfl
    · cases hhash : compute_file_hash fs (expectedPath tp m) with
      | none =>
        have hv : (verify_and_handle_existing fs tp m
            (insert_discovered now m L)).2 =
            reset_file_entry m (insert_discovered now m L) := by
          unfold verify_and_handle_existing
          rw [if_neg hex, hhash]
        rw [hv]
        exact stateOK_of_reset fs tp m _ _ hfind1
      | some hsh =>
        have hc : ¬ ((newRow now m).data_hash = some hsh
            ∧ (newRow now m).downloaded_at ≠ none) := by
          simp [newRow]
        have hv : (verify_and_handle_existing fs tp m
            (insert_discovered now m L)).2 =
            reset_file_entry m (insert_discovered now m L) := by
          unfold verify_and_handle_existing
          rw [if_neg hex, hhash]
          dsimp only
          rw [hfind1]
          dsimp only
          rw [if_neg hc]
        rw [hv]
        exact stateOK_of_reset fs tp m _ _ hfind1

theorem iohe_shape (fs : FS) (tp now : String) (m : Message) (L : Ledger) :
    insert_or_handle_existing fs tp now m L = L
  ∨ ∃ r, findRow m.chat_id m.id (insert_or_handle_existing fs tp now m L) =
      some r ∧ r.downloaded_at = none := by
  unfold insert_or_handle_existing
  cases hfind : findRow m.chat_id m.id L with
  | some r =>
    dsimp only
    by_cases hdl : r.downloaded_at ≠ none
    · rw [if_pos hdl]
      rcases verify_shape fs tp m L with h | h
      · rw [h]
        exact Or.inl rfl
      · rw [h]
        have h2 : findRow m.chat_id m.id (reset_file_entry m L) =
            some { r with prefixed_name := none, file_path := none,
                          data_hash := none, downloaded_at := none,
                          started_at := none } := by
          rw [findRow_reset_self, hfind]
          rfl
        exact Or.inr ⟨_, h2, rfl⟩
    · rw [if_neg hdl]
      exact Or.inl rfl
  | none =>
    dsimp only
    rcases verify_shape fs tp m (insert_discovered now m L) with h | h
    · rw [h]
      exact Or.inr ⟨_, findRow_insert_self now m L hfind, rfl⟩
    · rw [h]
      have h2 : findRow m.chat_id m.id
          (reset_file_entry m (insert_discovered now m L)) =
          some (newRow now m) := by
        rw [findRow_reset_self, findRow_insert_self now m L hfind]
        rfl
      exact Or.inr ⟨_, h2, rfl⟩

theorem scanStateOK_congr (fs : FS) (tp : String) (m : Message)
    (L1 L2 : Ledger)
    (hf : findRow m.chat_id m.id L1 = findRow m.chat_id m.id L2)
    (h : scanStateOK fs tp m L2) : scanStateOK fs tp m L1 := by
  unfold scanStateOK at h ⊢
  rw [hf]
  exact h

theorem stateOK_mono (fs : FS) (tp now : String) (m m' : Message) (L : Ledger)
    (h : scanStateOK fs tp m L) :
    scanStateOK fs tp m (insert_or_handle_existing fs tp now m' L) := by
  by_cases hkey : (m.chat_id, m.id) = (m'.chat_id, m'.id)
  · rcases iohe_shape fs tp now m' L with heq | ⟨r, hfr, hdl⟩
    · rw [heq]
      exact h
    · have h1 : m.chat_id = m'.chat_id := congrArg Prod.fst hkey
      have h2 : m.id = m'.id := congrArg Prod.snd hkey
      refine stateOK_of_pending fs tp m _ r ?_ hdl
      rw [h1, h2]
      exact hfr
  · apply scanStateOK_congr fs tp m _ L
    · exact iohe_findRow_other fs tp now m' L m.chat_id m.id hkey
    · exact h

theorem stateOK_step (fs : FS) (tp now : String) (m m' : Message) (L : Ledger)
    (h : scanStateOK fs tp m L) :
    scanStateOK fs tp m (scanStep fs tp now L m') := by
  unfold scanStep
  by_cases hm : m'.media
  · rw [if_pos hm]
    exact stateOK_mono fs tp now m m' L h
  · rw [if_neg hm]
    exact h

theorem stateOK_pass (fs : FS) (tp now : String) (m : Message)
    (msgs : List Message) :
    ∀ L : Ledger, scanStateOK fs tp m L →
      scanStateOK fs tp m (scan_and_queue fs tp now msgs L) := by
  induction msgs with
  | nil => intro L h; exact h
  | cons m0 rest ih =>
    intro L h
    exact ih (scanStep fs tp now L m0) (stateOK_step fs tp now m m0 L h)

theorem pass_all_stateOK (fs : FS) (tp now : String) (msgs : List Message) :
    ∀ (L : Ledger) (m : Message), m ∈ msgs → m.media = true →
      scanStateOK fs tp m (scan_and_queue fs tp now msgs L) := by
  induction msgs with
  | nil => intro L m hm; cases hm
  | cons m0 rest ih =>
    intro L m hm hmedia
    rcases List.mem_cons.mp hm with heq | hmem
    · subst heq
      apply stateOK_pass fs tp now m rest
      unfold scanStep
      rw [if_pos hmedia]
      exact stateOK_after fs tp now m L
    · exact ih (scanStep fs tp now L m0) m hmem hmedia

theorem pass_stable (fs : FS) (tp now : String) (msgs : List Message) :
    ∀ L : Ledger, (∀ m ∈ msgs, m.media = true → scanStateOK fs tp m L) →
      scan_and_queue fs tp now msgs L = L := by
  induction msgs with
  | nil => intro L _; rfl
  | cons m0 rest ih =>
    intro L h
    have hstep : scanStep fs tp now L m0 = L := by
      unfold scanStep
      by_cases hm : m0.media
      · rw [if_pos hm]
        exact iohe_of_stateOK fs tp m0 L (h m0 (List.mem_cons_self m0 rest) hm) now
      · rw [if_neg hm]
    show scan_and_queue fs tp now rest (scanStep fs tp now L m0) = L
    rw [hstep]
    exact ih L (fun m hm => h m (List.mem_cons_of_mem m0 hm))

theorem keysNodup_sqlUpdate (cid : Int) (mid : Nat) (f : Row → Row)
    (L : Ledger) (h : keysNodup L) : keysNodup (sqlUpdate cid mid f L) := by
  unfold keysNodup at h ⊢
  rw [map_fst_sqlUpdate]
  exact h

theorem keysNodup_verify (fs : FS) (tp : String) (m : Message) (L : Ledger)
    (h : keysNodup L) : keysNodup (verify_and_handle_existing fs tp m L).2 := by
  rcases verify_shape fs tp m L with heq | heq <;> rw [heq]
  · exact h
  · exact keysNodup_sqlUpdate _ _ _ L h

theorem keysNodup_insert (now : String) (m : Message) (L : Ledger)
    (hfind : findRow m.chat_id m.id L = none) (h : keysNodup L) :
    keysNodup (insert_discovered now m L) := by
  unfold keysNodup at h ⊢
  unfold insert_discovered
  rw [List.map_append, List.nodup_append]
  refine ⟨h, List.nodup_singleton _, ?_⟩
  intro k hk hk1
  simp at hk1
  obtain ⟨p, hp, hfst⟩ := List.mem_map.mp hk
  have hnone : L.find? (fun p => decide (p.1 = (m.chat_id, m.id))) = none :=
    Option.map_eq_none.mp hfind
  have hne := List.find?_eq_none.mp hnone p hp
  simp at hne
  rw [hk1] at hfst
  exact hne hfst

theorem keysNodup_iohe (fs : FS) (tp now : String) (m : Message) (L : Ledger)
    (h : keysNodup L) :
    keysNodup (insert_or_handle_existing fs tp now m L) := by
  unfold insert_or_handle_existing
  cases hfind : findRow m.chat_id m.id L with
  | some r =>
    dsimp only
    by_cases hdl : r.downloaded_at = none
    · rw [if_neg (by simp [hdl])]
      exact h
    · rw [if_pos (by simpa using hdl)]
      exact keysNodup_verify fs tp m L h
  | none =>
    dsimp only
    exact keysNodup_verify fs tp m _ (keysNodup_insert now m L hfind h)

theorem keysNodup_pass (fs : FS) (tp now : String) (msgs : List Message) :
    ∀ L : Ledger, keysNodup L →
      keysNodup (scan_and_queue fs tp now msgs L) := by
  induction msgs with
  | nil => intro L h; exact h
  | cons m0 rest ih =>
    intro L h
    apply ih
    unfold scanStep
    by_cases hm : m0.media
    · rw [if_pos hm]
      exact keysNodup_iohe fs tp now m0 L h
    · rw [if_neg hm]
      exact h

/-- C6: a second Scanner reconciliation pass over the same history, the same
folder and the same filesystem is the identity on the ledger produced by the
first pass (even with different wall-clock timestamps), and a pass never
creates a duplicate row for any `(channel_id, message_id)` key. -/
theorem claim6_scan_idempotent :
    ∀ (fs : FS) (tp now1 now2 : String) (msgs : List Message) (L : Ledger),
      scan_and_queue fs tp now2 msgs (scan_and_queue fs tp now1 msgs L) =
        scan_and_queue fs tp now1 msgs L
    ∧ (keysNodup L → keysNodup (scan_and_queue fs tp now1 msgs L)) := by
  intro fs tp now1 now2 msgs L
  constructor
  · apply pass_stable
    intro m hm hmedia
    exact pass_all_stateOK fs tp now1 msgs L m hm hmedia
  · intro h
    exact keysNodup_pass fs tp now1 msgs L h

/-- C6 witness: the theorem applied to a two-message history (`mEx` completed
and intact on disk, `mPlain` new) over the one-row ledger `LEx`. -/
theorem claim6_witness :
    scan_and_queue fsEx "d" "n2" [mEx, mPlain]
        (scan_and_queue fsEx "d" "n1" [mEx, mPlain] LEx) =
      scan_and_queue fsEx "d" "n1" [mEx, mPlain] LEx
  ∧ keysNodup LEx
  ∧ keysNodup (scan_and_queue fsEx "d" "n1" [mEx, mPlain] LEx) :=
  ⟨(claim6_scan_idempotent fsEx "d" "n1" "n2" [mEx, mPlain] LEx).1,
   by decide,
   (claim6_scan_idempotent fsEx "d" "n1" "n2" [mEx, mPlain] LEx).2
     (by decide)⟩

end TG

